import Mathlib

/-!
Verification of the routing engine in src/lib/layer.js (a koa-router style
HTTP router: Layer = route entry, Router = registry, plus dispatcher and
allowed-methods guard).  All definitions below are shallow embeddings of the
JavaScript source; external collaborators (the path-to-regexp compiler, the
JS RegExp engine, the decodeURIComponent builtin, koa-compose) are modelled
abstractly, as noted at each definition.
-/

namespace RouterSpec

/-! ## Layer constructor: HTTP method list processing

Models the loop in the Layer constructor (src/lib/layer.js lines 33-38):
each supplied method is upper-cased and pushed; whenever the pushed method is
"GET", "HEAD" is additionally unshifted onto the front of the same list.
JavaScript's toUpperCase is modelled for the ASCII range, which covers HTTP
method names. -/

def upChar (c : Char) : Char :=
  if 'a' ≤ c ∧ c ≤ 'z' then Char.ofNat (c.toNat - 32) else c

def jsToUpper (s : String) : String :=
  String.mk (s.data.map upChar)

def layerMethodsStep (acc : List String) (m : String) : List String :=
  let u := jsToUpper m
  let acc' := acc ++ [u]
  if u = "GET" then "HEAD" :: acc' else acc'

def layerMethods (ms : List String) : List String :=
  ms.foldl layerMethodsStep []

/-! ## Safe percent-decoding and parameter extraction

percentDecode models the decodeURIComponent builtin at the byte level: each
well-formed escape %XY becomes the single character with code 16*X+Y, and a
malformed escape (a percent sign not followed by two hex digits) makes the
whole decode fail (the builtin throws).  Multi-byte UTF-8 recombination and
its extra failure modes are abstracted away; the repository code under
verification is only the try/catch wrapper and the extraction loop. -/

def hexDigit? (c : Char) : Option Nat :=
  if '0' ≤ c ∧ c ≤ '9' then some (c.toNat - '0'.toNat)
  else if 'a' ≤ c ∧ c ≤ 'f' then some (c.toNat - 'a'.toNat + 10)
  else if 'A' ≤ c ∧ c ≤ 'F' then some (c.toNat - 'A'.toNat + 10)
  else none

def percentDecode : List Char → Option (List Char)
  | [] => some []
  | '%' :: rest =>
    match rest with
    | h1 :: h2 :: rest' =>
      match hexDigit? h1, hexDigit? h2 with
      | some v1, some v2 =>
        (percentDecode rest').map (fun l => Char.ofNat (16 * v1 + v2) :: l)
      | _, _ => none
    | _ => none
  | c :: rest => (percentDecode rest).map (fun l => c :: l)

/-- Models safeDecodeURIComponent (src/lib/layer.js lines 255-261): try to
decode, and on failure return the original text unchanged. -/
def safeDecodeURIComponent (text : String) : String :=
  match percentDecode text.data with
  | some l => String.mk l
  | none => text

/-! ## Parameter maps

Models a JavaScript plain object used as a string-keyed map: assignment
overwrites an existing key in place, otherwise appends. -/

abbrev PMap := List (String × String)

def insertParam : PMap → String → String → PMap
  | [], k, v => [(k, v)]
  | (k', v') :: t, k, v =>
    if k' = k then (k, v) :: t else (k', v') :: insertParam t k v

def lookupParam : PMap → String → Option String
  | [], _ => none
  | (k', v') :: t, k => if k' = k then some v' else lookupParam t k

/-- Models Layer.prototype.params (src/lib/layer.js lines 87-98): walk the
captured groups in order, aligned with the pattern's parameter names; a
missing capture (undefined, modelled as none) or an empty-string capture is
falsy in the JavaScript guard and is skipped; a non-empty capture is stored
under its parameter name after safe decoding, overwriting any existing
value.  A capture position beyond the parameter-name list is skipped. -/
def layerParamsExtract : List String → List (Option String) → PMap → PMap
  | _, [], m => m
  | [], _ :: cs, m => layerParamsExtract [] cs m
  | n :: ns, c :: cs, m =>
    let m' :=
      match c with
      | some s => if s ≠ "" then insertParam m n (safeDecodeURIComponent s) else m
      | none => m
    layerParamsExtract ns cs m'

/-! ## Middleware stacks and parameter-validator insertion

A middleware stack element is either a plain middleware function (identified
by an opaque id) or a parameter-validator wrapper carrying its bound
parameter name (the JavaScript wrapper function with a .param property,
created by Layer.prototype.param). -/

inductive Item where
  | plain (id : Nat)
  | validator (p : String)
  deriving DecidableEq, Repr

def Item.isPlain : Item → Bool
  | .plain _ => true
  | .validator _ => false

def Item.paramOf : Item → Option String
  | .plain _ => none
  | .validator p => some p

/-- Models JavaScript Array.prototype.indexOf on a string array: the index of
the first occurrence, or -1 when absent. -/
def jsIndexOf : List String → String → Int
  | [], _ => -1
  | b :: l, a =>
    if b = a then 0
    else
      let r := jsIndexOf l a
      if r = -1 then -1 else r + 1

/-- Stopping condition of the stack scan in Layer.prototype.param
(src/lib/layer.js line 217): stop at the first element that either has no
param property, or whose bound parameter sits strictly later than index x in
the pattern's parameter-name list. -/
def stopHere (names : List String) (x : Int) : Item → Bool
  | .plain _ => true
  | .validator q => jsIndexOf names q > x

/-- Models the stack.some splice loop of Layer.prototype.param: insert mw
immediately before the first element satisfying the stopping condition; if no
element qualifies, the loop falls off the end and nothing is inserted. -/
def spliceIn (names : List String) (x : Int) (mw : Item) : List Item → List Item
  | [] => []
  | it :: rest =>
    if stopHere names x it then mw :: it :: rest else it :: spliceIn names x mw rest

/-- Models Layer.prototype.param (src/lib/layer.js lines 196-226) acting on a
stack: names is the layer's ordered parameter-name list; when the bound
parameter occurs in it, a validator wrapper is spliced in, otherwise the
stack is left untouched. -/
def layerParamInsert (names : List String) (p : String) (stack : List Item) : List Item :=
  let x := jsIndexOf names p
  if x > -1 then spliceIn names x (Item.validator p) stack else stack

/-- Position of a validator in the parameter order of the pattern; plain
middleware is given -1 (it carries no parameter). -/
def vIdx (names : List String) : Item → Int
  | .validator q => jsIndexOf names q
  | .plain _ => -1

/-- Insertion of a validator into the validator-only prefix of a stack:
before the first validator bound to a strictly later parameter, at the end
when none qualifies.  Used to describe spliceIn on a well-formed stack. -/
def oins (names : List String) (x : Int) (mw : Item) : List Item → List Item
  | [] => [mw]
  | v :: vs => if stopHere names x v then mw :: v :: vs else v :: oins names x mw vs

/-- Sequence of registry-level addParamValidator calls applied to one entry:
Router.prototype.param (src/lib/layer.js lines 1029-1037) forwards each call
to Layer.prototype.param of every entry. -/
def addAll (names : List String) (ps : List String) (stack : List Item) : List Item :=
  ps.foldl (fun s p => layerParamInsert names p s) stack

/-- Registry-level view for the frame property: a registry is a list of
entries, each carrying its pattern's parameter-name list and its middleware
stack; Router.prototype.param calls Layer.prototype.param on every entry. -/
def routerParamUpd (p : String) (entries : List (List String × List Item)) :
    List (List String × List Item) :=
  entries.map (fun e => (e.1, layerParamInsert e.1 p e.2))

/-! ## Route entries, matching, dispatch

An MLayer is the dispatch-time view of a Layer: its path string, optional
name, method set, middleware stack (middleware identified by opaque ids),
ordered parameter names, and two functions abstracting the compiled regular
expression produced by the external path-to-regexp library: matchesFn models
this.regexp.test(path) and capturesFn models
path.match(this.regexp).slice(1) (with the ignoreCaptures option folded in),
where a group that did not participate in the match is undefined (none). -/

structure MLayer where
  path : String
  name : Option String
  methods : List String
  matchesFn : String → Bool
  capturesFn : String → List (Option String)
  paramNames : List String
  stack : List Nat

structure MatchResult where
  path : List MLayer
  pathAndMethod : List MLayer
  route : Bool

/-- Loop body of Router.prototype.match (src/lib/layer.js lines 975-994):
a path-matching layer is collected into path; it additionally goes into
pathAndMethod when its method set is empty (pure middleware entry) or
contains the request method, and the route flag is set when such a layer has
a non-empty method set. -/
def matchStep (p m : String) (acc : MatchResult) (l : MLayer) : MatchResult :=
  if l.matchesFn p then
    let acc1 : MatchResult := { acc with path := acc.path ++ [l] }
    if l.methods.isEmpty || l.methods.contains m then
      { acc1 with
        pathAndMethod := acc1.pathAndMethod ++ [l]
        route := acc1.route || !l.methods.isEmpty }
    else acc1
  else acc

/-- Models Router.prototype.match (src/lib/layer.js lines 962-997). -/
def routerMatch (layers : List MLayer) (p m : String) : MatchResult :=
  layers.foldl (matchStep p m) ⟨[], [], false⟩

/-- Per-request context (the koa ctx as far as the router reads or writes
it): request path and method, cumulative parameter map, last captures, the
cross-call accumulator of path-only matches (ctx.matched), the exposed
matched route pattern and name, ctx.routerPath and ctx.routerName, and the
response state (status none models an unset status). -/
structure Ctx where
  path : String
  method : String
  params : PMap
  captures : List (Option String)
  matchedAcc : List MLayer
  matchedRoute : Option String
  matchedRouteName : Option String
  routerPath : Option String
  routerName : Option String
  status : Option Nat
  body : Option String
  headers : List (String × String)

/-- Binder step emitted for each matched layer by the reduce in
Router.prototype.routes (src/lib/layer.js lines 644-659): recompute the
layer's captures against the request path, merge them into the cumulative
parameter map, and refresh ctx.routerPath, ctx.routerName and the exposed
matched pattern and (when the layer is named) matched name. -/
def bindStep (p : String) (l : MLayer) (c : Ctx) : Ctx :=
  let caps := l.capturesFn p
  let ps := layerParamsExtract l.paramNames caps c.params
  { c with
    captures := caps
    params := ps
    routerPath := some l.path
    routerName := l.name
    matchedRoute := some l.path
    matchedRouteName := if l.name.isSome then l.name else c.matchedRouteName }

/-- Execution of the composed chain built by the reduce, under the standard
assumption that every step continues to the next (koa-compose left-to-right
sequencing): for each matched layer in order, its binder step updates the
context and then its own middleware runs in stack order.  The first
component is the trace of executed middleware ids. -/
def runChain (p : String) : List MLayer → Ctx → List Nat × Ctx
  | [], c => ([], c)
  | l :: ls, c =>
    let c' := bindStep p l c
    let r := runChain p ls c'
    (l.stack ++ r.1, r.2)

inductive DispatchResult where
  | fallthrough (ctx : Ctx)
  | executed (trace : List Nat) (ctx : Ctx)

/-- Pre-chain context update of the dispatcher: exposes the most specific
match (the last element of pathAndMethod) on the context before execution
(src/lib/layer.js lines 636-641). -/
def preChainCtx (pam : List MLayer) (c : Ctx) : Ctx :=
  match pam.getLast? with
  | some msl =>
    { c with
      matchedRoute := some msl.path
      matchedRouteName := if msl.name.isSome then msl.name else c.matchedRouteName }
  | none => c

/-- Models the dispatch closure returned by Router.prototype.routes
(src/lib/layer.js lines 614-662): determine the lookup path (a routerPath
option on the router, else ctx.routerPath, else ctx.path), match, append the
path-only matches to the cross-call accumulator, and either fall through to
the next handler outside the dispatcher (when no exact route was found; not
an error, the model has no failure outcome on this branch) or execute the
composed chain. -/
def dispatch (layers : List MLayer) (optsRouterPath : Option String) (ctx : Ctx) :
    DispatchResult :=
  let p := (optsRouterPath.orElse (fun _ => ctx.routerPath)).getD ctx.path
  let matched := routerMatch layers p ctx.method
  let ctx1 := { ctx with matchedAcc := ctx.matchedAcc ++ matched.path }
  if matched.route then
    let r := runChain p matched.pathAndMethod (preChainCtx matched.pathAndMethod ctx1)
    .executed r.1 r.2
  else
    .fallthrough ctx1

/-! ## Methods Guard (allowedMethods) -/

/-- Models assignment allowed[method] = method into a fresh JavaScript
object: Object.keys later returns the keys in first-insertion order, so a
repeated method leaves the key list unchanged. -/
def pushUnique (acc : List String) (m : String) : List String :=
  if m ∈ acc then acc else acc ++ [m]

/-- Union of the method sets of every entry in the path-match accumulator,
in first-discovery order (the allowed object of src/lib/layer.js lines
719-730). -/
def guardUnion (matched : List MLayer) : List String :=
  matched.foldl (fun ks l => l.methods.foldl pushUnique ks) []

/-- Specification-style first-occurrence deduplication: keep each string the
first time it appears, dropping every later duplicate. -/
def keepFirst : List String → List String
  | [] => []
  | a :: l => a :: keepFirst (l.filter (fun b => b ≠ a))
termination_by l => l.length
decreasing_by
  simp only [List.length_cons]
  exact Nat.lt_succ_of_le (List.length_filter_le _ _)

inductive GuardOut where
  | ok (c : Ctx)
  | errNotImplemented
  | errMethodNotAllowed

/-- Models the middleware returned by Router.prototype.allowedMethods
(src/lib/layer.js lines 713-768), applied to the context as it stands after
downstream execution completes: nothing happens unless the status is unset
or 404; otherwise the Allow union is computed from the path-match
accumulator, a request method outside the globally implemented list yields
501 (or an error in throw mode), and for a non-empty union an OPTIONS
request yields 200 with an empty body while a method outside the union
yields 405 (or an error in throw mode); in every remaining case the context
is left unchanged. -/
def allowedMethodsGuard (implemented : List String) (throwMode : Bool) (ctx : Ctx) :
    GuardOut :=
  if ctx.status = none ∨ ctx.status = some 404 then
    let u := guardUnion ctx.matchedAcc
    let allowHdr := String.intercalate ", " u
    if ctx.method ∉ implemented then
      if throwMode then .errNotImplemented
      else .ok { ctx with
        status := some 501
        headers := insertParam ctx.headers "Allow" allowHdr }
    else if u ≠ [] then
      if ctx.method = "OPTIONS" then
        .ok { ctx with
          status := some 200
          body := some ""
          headers := insertParam ctx.headers "Allow" allowHdr }
      else if ctx.method ∉ u then
        if throwMode then .errMethodNotAllowed
        else .ok { ctx with
          status := some 405
          headers := insertParam ctx.headers "Allow" allowHdr }
      else .ok ctx
    else .ok ctx
  else .ok ctx

/-! ## Named-route lookup and URL generation -/

/-- Condition of the loop in Router.prototype.route (src/lib/layer.js line
898): the entry's name must be truthy (a JavaScript empty string is falsy)
and equal to the requested name. -/
def nameMatches (l : MLayer) (n : String) : Bool :=
  match l.name with
  | some s => s ≠ "" && s == n
  | none => false

/-- Models Router.prototype.route (src/lib/layer.js lines 894-902): linear
scan returning the first entry whose name matches, or a not-found sentinel
(false in the source, none here). -/
def routerRoute : List MLayer → String → Option MLayer
  | [], _ => none
  | l :: ls, n => if nameMatches l n then some l else routerRoute ls n

/-- Models Router.prototype.url (src/lib/layer.js lines 939-948).  The
actual URL construction (Layer.prototype.url, built on the external
path-to-regexp compile) is abstracted as the build argument; the source
method performs no writes, so the registry it returns alongside the result
is the one it received.  An unknown name produces an error value (the source
returns a new Error instead of throwing). -/
def routerUrl (stack : List MLayer) (build : MLayer → String) (n : String) :
    Except String String × List MLayer :=
  match routerRoute stack n with
  | some l => (.ok (build l), stack)
  | none => (.error ("No route found for name: " ++ n), stack)

/-! ## Nested-router merging and stack aliasing (Router.prototype.use)

To reason about aliasing of middleware-stack arrays between registries, the
heap of stack arrays is made explicit: a Store holds the stack arrays, and a
route entry refers to its array by index (HLayer.stackRef).  Path patterns
are kept structurally as segment lists, so prefixing is prepending and the
parameter-name recomputation done by setPrefix is patternNames. -/

inductive Seg where
  | lit (s : String)
  | param (n : String)
  deriving DecidableEq, Repr

abbrev Pattern := List Seg

def patternNames (pat : Pattern) : List String :=
  pat.filterMap (fun s => match s with | .param n => some n | .lit _ => none)

structure HLayer where
  pattern : Pattern
  strict : Bool
  stackRef : Nat
  name : Option String
  methods : List String
  deriving DecidableEq, Repr

instance : Inhabited HLayer := ⟨⟨[], false, 0, none, []⟩⟩

structure Store where
  cells : List (List Item)
  deriving DecidableEq, Repr

def storeGet (s : Store) (r : Nat) : List Item := s.cells.getD r []

def storeSet (s : Store) (r : Nat) (v : List Item) : Store := ⟨s.cells.set r v⟩

structure HRouter where
  stack : List HLayer
  params : List String
  prefixPat : Option Pattern
  deriving DecidableEq, Repr

/-- Models Layer.prototype.setPrefix (src/lib/layer.js lines 236-244) on
structural patterns: an empty path is left alone; a bare non-strict root
pattern is replaced by the prefix outright; otherwise the prefix is
prepended and the parameter names are recompiled from the new pattern (here
recomputed on demand via patternNames). -/
def hApplyPfx (pre : Pattern) (l : HLayer) : HLayer :=
  if l.pattern = [] then l
  else if l.pattern = [Seg.lit "/"] ∧ l.strict = false then { l with pattern := pre }
  else { l with pattern := pre ++ l.pattern }

/-- Prefixing performed on each cloned entry inside Router.prototype.use
(src/lib/layer.js lines 543-544): first the mount path, then the mounting
registry's own configured prefix, each only when present. -/
def cloneEntry (mountPath : Option Pattern) (pfx : Option Pattern) (l : HLayer) : HLayer :=
  let l1 := match mountPath with | some p => hApplyPfx p l | none => l
  match pfx with | some p => hApplyPfx p l1 | none => l1

/-- Models Router.prototype.register (src/lib/layer.js lines 843-885) for a
single path: a fresh stack array is allocated for the new entry, the
registry prefix is applied, every stored parameter validator is applied to
the new entry in stored order, and the entry is appended. -/
def hregister (rt : HRouter) (st : Store) (pat : Pattern) (ms : List String)
    (mws : List Item) (nm : Option String) : HRouter × Store :=
  let ref := st.cells.length
  let l0 : HLayer := ⟨pat, false, ref, nm, layerMethods ms⟩
  let l1 := match rt.prefixPat with | some p => hApplyPfx p l0 | none => l0
  let stack0 := rt.params.foldl
    (fun s p => layerParamInsert (patternNames l1.pattern) p s) mws
  ({ rt with stack := rt.stack ++ [l1] }, ⟨st.cells ++ [stack0]⟩)

/-- Models the nested-router branch of Router.prototype.use (src/lib/layer.js
lines 531-560): every entry of the nested registry is cloned with
Object.assign, which copies the stack field by reference — the clone and the
source entry share one stack array, so the clone keeps the source's
stackRef.  Each clone is re-prefixed (mount path, then the mounting
registry's prefix) and appended to the mounting registry; afterwards every
parameter validator already stored on the mounting registry is applied to
the clones, writing through the shared stack references. -/
def huse (rt : HRouter) (st : Store) (mountPath : Option Pattern) (child : HRouter) :
    HRouter × Store :=
  let clones := child.stack.map (cloneEntry mountPath rt.prefixPat)
  let rt' := { rt with stack := rt.stack ++ clones }
  let st' := rt.params.foldl
    (fun s p =>
      clones.foldl
        (fun s2 cl =>
          storeSet s2 cl.stackRef
            (layerParamInsert (patternNames cl.pattern) p (storeGet s2 cl.stackRef)))
        s)
    st
  (rt', st')

/-- Models Router.prototype.param (src/lib/layer.js lines 1029-1037) in the
heap model: store the validator under its name and insert it into every
entry of the registry through that entry's stack reference. -/
def hrouterParam (rt : HRouter) (st : Store) (p : String) : HRouter × Store :=
  let rt' := { rt with params := pushUnique rt.params p }
  let st' := rt.stack.foldl
    (fun s l =>
      storeSet s l.stackRef
        (layerParamInsert (patternNames l.pattern) p (storeGet s l.stackRef)))
    st
  (rt', st')

/-! ## Concrete fixtures used by the witness theorems

The matchesFn and capturesFn fields below are concrete instances of the
abstracted compiled pattern (each theorem quantifies over arbitrary such
functions). -/

def wCtxBase : Ctx :=
  ⟨"/", "GET", [], [], [], none, none, none, none, none, none, []⟩

def wMwLayer : MLayer :=
  ⟨"([^/]*)", none, [], fun _ => true, fun _ => [], [], [9]⟩

def wCtx6 : Ctx := { wCtxBase with path := "/x" }

def wFooParam : MLayer :=
  ⟨"/foo/:id", none, ["HEAD", "GET"], fun s => s == "/foo/3",
    fun s => if s == "/foo/3" then [some "3"] else [none], ["id"], [1]⟩

def wFooLit : MLayer :=
  ⟨"/foo/3", some "foo3", ["HEAD", "GET"], fun s => s == "/foo/3",
    fun _ => [], [], [2]⟩

def wCtx3 : Ctx := { wCtxBase with path := "/foo/3" }

def wGetLayer : MLayer :=
  ⟨"/x", none, ["HEAD", "GET"], fun s => s == "/x", fun _ => [], [], [1]⟩

def wPostLayer : MLayer :=
  ⟨"/x", none, ["POST"], fun s => s == "/x", fun _ => [], [], [2]⟩

def wImplemented : List String :=
  ["HEAD", "OPTIONS", "GET", "PUT", "PATCH", "POST", "DELETE"]

def wCtx1 : Ctx :=
  { wCtxBase with
    path := "/x"
    method := "PUT"
    matchedAcc := [wGetLayer, wPostLayer] }

def wU1 : MLayer :=
  ⟨"/users/:id", some "user", ["HEAD", "GET"], fun s => s == "/users/3",
    fun _ => [some "3"], ["id"], [1]⟩

def wU2 : MLayer :=
  ⟨"/users2", some "user", ["POST"], fun _ => false, fun _ => [], [], [2]⟩

end RouterSpec

namespace RouterSpec

theorem lookupParam_insertParam (m : PMap) (k v : String) :
    lookupParam (insertParam m k v) k = some v := by
  induction m with
  | nil => simp [insertParam, lookupParam]
  | cons p t ih =>
    obtain ⟨k', v'⟩ := p
    by_cases h : k' = k
    · simp [insertParam, lookupParam, h]
    · simp [insertParam, lookupParam, h, ih]

theorem layerParams_skip_all (names : List String) (cs : List (Option String))
    (m : PMap) (h : ∀ c ∈ cs, c = none ∨ c = some "") :
    layerParamsExtract names cs m = m := by
  induction cs generalizing names m with
  | nil => cases names <;> rfl
  | cons c cs ih =>
    have hc : c = none ∨ c = some "" := h c (by simp)
    have hcs : ∀ c' ∈ cs, c' = none ∨ c' = some "" := fun c' hc' => h c' (by simp [hc'])
    cases names with
    | nil => simpa [layerParamsExtract] using ih [] m hcs
    | cons n ns =>
      rcases hc with hc | hc <;> subst hc <;>
        simpa [layerParamsExtract] using ih ns m hcs

theorem jsIndexOf_neg_or_nonneg (l : List String) (a : String) :
    jsIndexOf l a = -1 ∨ 0 ≤ jsIndexOf l a := by
  induction l with
  | nil => left; rfl
  | cons b l ih =>
    by_cases hb : b = a
    · right; simp [jsIndexOf, hb]
    · rcases ih with h | h <;> simp [jsIndexOf, hb, h] <;> omega

theorem jsIndexOf_eq_neg_one_iff (l : List String) (a : String) :
    jsIndexOf l a = -1 ↔ a ∉ l := by
  induction l with
  | nil => simp [jsIndexOf]
  | cons b l ih =>
    by_cases hb : b = a
    · simp [jsIndexOf, hb]
    · rcases jsIndexOf_neg_or_nonneg l a with h | h
      · simp [jsIndexOf, hb, h, ih.mp h, Ne.symm hb]
      · have hne : jsIndexOf l a ≠ -1 := by omega
        have : a ∈ l := by
          by_contra hmem
          exact hne (ih.mpr hmem)
        simp [jsIndexOf, hb, hne, this]
        omega

theorem jsIndexOf_nonneg_of_mem {l : List String} {a : String} (h : a ∈ l) :
    0 ≤ jsIndexOf l a := by
  rcases jsIndexOf_neg_or_nonneg l a with h' | h'
  · exact absurd ((jsIndexOf_eq_neg_one_iff l a).mp h') (by simp [h])
  · exact h'

theorem layerParamInsert_not_mem (names : List String) (p : String)
    (stack : List Item) (h : p ∉ names) :
    layerParamInsert names p stack = stack := by
  have hx : jsIndexOf names p = -1 := (jsIndexOf_eq_neg_one_iff names p).mpr h
  simp [layerParamInsert, hx]

theorem spliceIn_split (names : List String) (x : Int) (mw : Item)
    (vs plains : List Item) (hv : ∀ it ∈ vs, it.isPlain = false)
    (hp : ∀ it ∈ plains, it.isPlain = true) (hne : plains ≠ []) :
    spliceIn names x mw (vs ++ plains) = oins names x mw vs ++ plains := by
  induction vs with
  | nil =>
    cases plains with
    | nil => exact absurd rfl hne
    | cons q rest =>
      have hq : q.isPlain = true := hp q (by simp)
      cases q with
      | plain i => simp [spliceIn, oins, stopHere]
      | validator _ => simp [Item.isPlain] at hq
  | cons v vs ih =>
    have hv' : ∀ it ∈ vs, it.isPlain = false := fun it hit => hv it (by simp [hit])
    by_cases hs : stopHere names x v = true
    · simp [spliceIn, oins, hs]
    · simp only [Bool.not_eq_true] at hs
      simp [spliceIn, oins, hs, ih hv']

theorem mem_oins {names : List String} {x : Int} {mw w : Item} {vs : List Item}
    (h : w ∈ oins names x mw vs) : w = mw ∨ w ∈ vs := by
  induction vs with
  | nil => simpa [oins] using h
  | cons v vs ih =>
    by_cases hs : stopHere names x v = true
    · rw [oins, if_pos hs] at h
      rcases List.mem_cons.mp h with hw | hw
      · exact Or.inl hw
      · exact Or.inr hw
    · rw [oins, if_neg hs] at h
      rcases List.mem_cons.mp h with hw | hw
      · exact Or.inr (by simp [hw])
      · rcases ih hw with hw' | hw'
        · exact Or.inl hw'
        · exact Or.inr (by simp [hw'])

theorem oins_allVal {names : List String} {x : Int} {mw : Item} {vs : List Item}
    (hmw : mw.isPlain = false) (hv : ∀ it ∈ vs, it.isPlain = false) :
    ∀ it ∈ oins names x mw vs, it.isPlain = false := by
  intro it hit
  rcases mem_oins hit with h | h
  · simpa [h] using hmw
  · exact hv it h

theorem oins_sorted {names : List String} {x : Int} {mw : Item} {vs : List Item}
    (hmw : vIdx names mw = x) (hv : ∀ it ∈ vs, it.isPlain = false)
    (hs : List.Pairwise (fun a b => vIdx names a ≤ vIdx names b) vs) :
    List.Pairwise (fun a b => vIdx names a ≤ vIdx names b) (oins names x mw vs) := by
  induction vs with
  | nil => simp [oins]
  | cons v vs ih =>
    have hvvs : ∀ it ∈ vs, it.isPlain = false := fun it hit => hv it (by simp [hit])
    have hvv : v.isPlain = false := hv v (by simp)
    rcases List.pairwise_cons.mp hs with ⟨hhead, htail⟩
    by_cases hstop : stopHere names x v = true
    · have hvx : x < vIdx names v := by
        cases v with
        | plain _ => simp [Item.isPlain] at hvv
        | validator q => simpa [stopHere, vIdx] using hstop
      rw [oins, if_pos hstop]
      refine List.pairwise_cons.mpr ⟨?_, hs⟩
      intro w hw
      rcases List.mem_cons.mp hw with hw | hw
      · subst hw; omega
      · have := hhead w hw
        omega
    · have hvx : vIdx names v ≤ x := by
        cases v with
        | plain _ => simp [Item.isPlain] at hvv
        | validator q =>
          simp only [stopHere, decide_eq_true_eq, Bool.not_eq_true] at hstop
          simp only [vIdx]
          omega
      have hfalse : stopHere names x v = false := by
        simpa using hstop
      rw [oins, hfalse]
      simp only [Bool.false_eq_true, if_false]
      refine List.pairwise_cons.mpr ⟨?_, ih hvvs htail⟩
      intro w hw
      rcases mem_oins hw with hw | hw
      · subst hw; omega
      · exact hhead w hw

theorem oins_perm (names : List String) (x : Int) (mw : Item) (vs : List Item) :
    List.Perm (oins names x mw vs) (mw :: vs) := by
  induction vs with
  | nil => rfl
  | cons v vs ih =>
    by_cases hs : stopHere names x v = true
    · rw [oins, if_pos hs]
    · rw [oins, if_neg hs]
      exact (ih.cons v).trans (List.Perm.swap mw v vs)

theorem addAll_split (names ps : List String) (vs plains : List Item)
    (hv : ∀ it ∈ vs, it.isPlain = false)
    (hsort : List.Pairwise (fun a b => vIdx names a ≤ vIdx names b) vs)
    (hp : ∀ it ∈ plains, it.isPlain = true) (hne : plains ≠ []) :
    ∃ vs', addAll names ps (vs ++ plains) = vs' ++ plains ∧
      (∀ it ∈ vs', it.isPlain = false) ∧
      List.Pairwise (fun a b => vIdx names a ≤ vIdx names b) vs' ∧
      List.Perm (vs'.map Item.paramOf)
        ((ps.filter (fun p => decide (p ∈ names))).map some ++ vs.map Item.paramOf) := by
  induction ps generalizing vs with
  | nil => exact ⟨vs, rfl, hv, hsort, by simp⟩
  | cons p ps ih =>
    have hstep : addAll names (p :: ps) (vs ++ plains)
        = addAll names ps (layerParamInsert names p (vs ++ plains)) := rfl
    by_cases hmem : p ∈ names
    · have hx : (0 : Int) ≤ jsIndexOf names p := jsIndexOf_nonneg_of_mem hmem
      have hins : layerParamInsert names p (vs ++ plains)
          = oins names (jsIndexOf names p) (Item.validator p) vs ++ plains := by
        rw [layerParamInsert]
        rw [if_pos (by omega)]
        exact spliceIn_split names (jsIndexOf names p) (Item.validator p) vs plains hv hp hne
      have hv2 : ∀ it ∈ oins names (jsIndexOf names p) (Item.validator p) vs,
          it.isPlain = false := oins_allVal rfl hv
      have hs2 : List.Pairwise (fun a b => vIdx names a ≤ vIdx names b)
          (oins names (jsIndexOf names p) (Item.validator p) vs) :=
        oins_sorted rfl hv hsort
      obtain ⟨vs', heq, hv', hsort', hperm'⟩ := ih _ hv2 hs2
      refine ⟨vs', by rw [hstep, hins]; exact heq, hv', hsort', ?_⟩
      have hmap : List.Perm
          ((oins names (jsIndexOf names p) (Item.validator p) vs).map Item.paramOf)
          (some p :: vs.map Item.paramOf) :=
        (oins_perm names (jsIndexOf names p) (Item.validator p) vs).map Item.paramOf
      have h1 : List.Perm (vs'.map Item.paramOf)
          ((ps.filter (fun q => decide (q ∈ names))).map some ++ (some p :: vs.map Item.paramOf)) :=
        hperm'.trans (List.Perm.append_left _ hmap)
      have h2 : List.Perm
          ((ps.filter (fun q => decide (q ∈ names))).map some ++ (some p :: vs.map Item.paramOf))
          (some p :: ((ps.filter (fun q => decide (q ∈ names))).map some ++ vs.map Item.paramOf)) :=
        List.perm_middle
      have hfil : ((p :: ps).filter (fun q => decide (q ∈ names)))
          = p :: ps.filter (fun q => decide (q ∈ names)) := by
        simp [List.filter_cons, hmem]
      rw [hfil]
      exact (h1.trans h2)
    · have hins : layerParamInsert names p (vs ++ plains) = vs ++ plains :=
        layerParamInsert_not_mem names p _ hmem
      obtain ⟨vs', heq, hv', hsort', hperm'⟩ := ih vs hv hsort
      refine ⟨vs', by rw [hstep, hins]; exact heq, hv', hsort', ?_⟩
      have hfil : ((p :: ps).filter (fun q => decide (q ∈ names)))
          = ps.filter (fun q => decide (q ∈ names)) := by
        simp [List.filter_cons, hmem]
      rw [hfil]
      exact hperm'

/-- C4: inserting a parameter validator into an entry's middleware stack
places it (on a stack whose validator prefix precedes the plain middleware)
exactly where oins describes: immediately before the first validator bound
to a later parameter of the pattern, and past every validator bound to an
earlier-or-equal parameter — hence, when none qualifies, right before the
first plain (non-validator) middleware.  Consequently, starting from an
entry whose stack holds only its own (plain) middleware, after any sequence
of validator insertions in any order (as performed retroactively by
Router.prototype.param / addParamValidator), the stack is a validator block
followed by the untouched original middleware, the validators are ordered by
their parameter's left-to-right position in the pattern, and they are
exactly the inserted validators whose parameter occurs in the pattern. -/
theorem claim4_validator_ordering (names ps : List String) (stack : List Item)
    (hplain : ∀ it ∈ stack, it.isPlain = true) (hne : stack ≠ []) :
    (∀ vs p, (∀ it ∈ vs, it.isPlain = false) → p ∈ names →
        layerParamInsert names p (vs ++ stack)
          = oins names (jsIndexOf names p) (Item.validator p) vs ++ stack) ∧
    ∃ vs', addAll names ps stack = vs' ++ stack ∧
      (∀ it ∈ vs', it.isPlain = false) ∧
      List.Pairwise (fun a b => vIdx names a ≤ vIdx names b) vs' ∧
      List.Perm (vs'.map Item.paramOf)
        ((ps.filter (fun p => decide (p ∈ names))).map some) := by
  constructor
  · intro vs p hvs hmem
    have hx : (0 : Int) ≤ jsIndexOf names p := jsIndexOf_nonneg_of_mem hmem
    rw [layerParamInsert]
    rw [if_pos (by omega)]
    exact spliceIn_split names (jsIndexOf names p) (Item.validator p) vs stack hvs hplain hne
  · obtain ⟨vs', heq, hv', hsort', hperm'⟩ :=
      addAll_split names ps [] stack (by simp) (by simp) hplain hne
    exact ⟨vs', by simpa using heq, hv', hsort', by simpa using hperm'⟩

/-- C4 witness: a pattern with parameters aid then cid, a single plain
middleware, validators added in the reversed order cid then aid; the theorem
applies, and concretely the resulting stack is the aid validator, then the
cid validator, then the original middleware. -/
theorem claim4_validator_ordering_witness :
    (∀ it ∈ [Item.plain 0], it.isPlain = true) ∧ ([Item.plain 0] ≠ []) ∧
    ((∀ vs p, (∀ it ∈ vs, it.isPlain = false) → p ∈ ["aid", "cid"] →
        layerParamInsert ["aid", "cid"] p (vs ++ [Item.plain 0])
          = oins ["aid", "cid"] (jsIndexOf ["aid", "cid"] p) (Item.validator p) vs
              ++ [Item.plain 0]) ∧
      ∃ vs', addAll ["aid", "cid"] ["cid", "aid"] [Item.plain 0] = vs' ++ [Item.plain 0] ∧
        (∀ it ∈ vs', it.isPlain = false) ∧
        List.Pairwise (fun a b => vIdx ["aid", "cid"] a ≤ vIdx ["aid", "cid"] b) vs' ∧
        List.Perm (vs'.map Item.paramOf)
          ((["cid", "aid"].filter (fun p => decide (p ∈ ["aid", "cid"]))).map some)) ∧
    addAll ["aid", "cid"] ["cid", "aid"] [Item.plain 0]
      = [Item.validator "aid", Item.validator "cid", Item.plain 0] :=
  ⟨by decide, by decide,
    claim4_validator_ordering ["aid", "cid"] ["cid", "aid"] [Item.plain 0]
      (by decide) (by decide),
    by decide⟩

/-- C10: inserting a parameter validator for a name that does not occur in an
entry's parameter-name list leaves that entry's middleware stack unchanged,
and a registry-level Router.prototype.param call leaves every entry whose
pattern does not declare the named parameter exactly as it was. -/
theorem claim10_param_frame :
    (∀ (names : List String) (p : String) (stack : List Item),
        p ∉ names → layerParamInsert names p stack = stack) ∧
    (∀ (p : String) (entries : List (List String × List Item)) (i : Nat)
        (e : List String × List Item),
        entries[i]? = some e → p ∉ e.1 → (routerParamUpd p entries)[i]? = some e) := by
  refine ⟨layerParamInsert_not_mem, ?_⟩
  intro p entries i e hget hmem
  have : (routerParamUpd p entries)[i]? = (entries[i]?).map
      (fun e => (e.1, layerParamInsert e.1 p e.2)) := by
    simp [routerParamUpd]
  rw [this, hget]
  simp [layerParamInsert_not_mem _ _ _ hmem]

theorem layerMethods_fold_inv (ms : List String) :
    ∀ acc : List String, ("GET" ∈ acc → "HEAD" ∈ acc) →
      "GET" ∈ ms.foldl layerMethodsStep acc → "HEAD" ∈ ms.foldl layerMethodsStep acc := by
  induction ms with
  | nil => intro acc hacc; exact hacc
  | cons m ms ih =>
    intro acc hacc
    simp only [List.foldl_cons]
    refine ih (layerMethodsStep acc m) ?_
    intro hg
    by_cases hu : jsToUpper m = "GET"
    · simp [layerMethodsStep, hu]
    · simp only [layerMethodsStep, hu, if_false] at hg ⊢
      rcases List.mem_append.mp hg with hg | hg
      · exact List.mem_append.mpr (Or.inl (hacc hg))
      · simp only [List.mem_singleton] at hg
        exact absurd hg.symm hu

/-- C5: for every entry created by registration, whatever the case of the
supplied HTTP method names, if GET ends up in the entry's method set then
HEAD is in the same method set (the Layer constructor unshifts HEAD onto the
same methods array whenever it pushes GET). -/
theorem claim5_get_implies_head (ms : List String)
    (h : "GET" ∈ layerMethods ms) : "HEAD" ∈ layerMethods ms :=
  layerMethods_fold_inv ms [] (by simp) h

/-- C5 witness: registering with the lower-case method list containing only
get yields a method set containing both GET and HEAD. -/
theorem claim5_get_implies_head_witness :
    "GET" ∈ layerMethods ["get"] ∧ "HEAD" ∈ layerMethods ["get"] :=
  ⟨by decide, claim5_get_implies_head ["get"] (by decide)⟩

/-- C7: parameter extraction decodes captures safely: whenever decoding a
captured text fails, the raw text is kept verbatim (safeDecodeURIComponent
returns its argument, no failure escapes), and concretely extracting the
capture of /users/%41 against /users/:id stores id = A while extracting the
capture of /users/% stores id = % . -/
theorem claim7_safe_decoding :
    (∀ t : String, percentDecode t.data = none → safeDecodeURIComponent t = t) ∧
    lookupParam (layerParamsExtract ["id"] [some "%41"] []) "id" = some "A" ∧
    lookupParam (layerParamsExtract ["id"] [some "%"] []) "id" = some "%" := by
  refine ⟨?_, by decide, by decide⟩
  intro t h
  simp [safeDecodeURIComponent, h]

/-- C7 witness: the lone percent sign is a malformed escape, and the safe
decoder returns it verbatim. -/
theorem claim7_safe_decoding_witness :
    percentDecode "%".data = none ∧ safeDecodeURIComponent "%" = "%" :=
  ⟨by decide, claim7_safe_decoding.1 "%" (by decide)⟩

/-- C9: a missing (undefined) capture or an empty-string capture never adds a
key to the parameter map and never overwrites an existing value: a whole
capture list of such captures leaves the map exactly as it was, and each
single such capture is skipped by the extraction loop. -/
theorem claim9_empty_capture_frame (names : List String) (cs : List (Option String))
    (m : PMap) (h : ∀ c ∈ cs, c = none ∨ c = some "") :
    layerParamsExtract names cs m = m ∧
    (∀ (ns : List String) (n : String) (cs' : List (Option String)) (m' : PMap),
      layerParamsExtract (n :: ns) (none :: cs') m' = layerParamsExtract ns cs' m' ∧
      layerParamsExtract (n :: ns) (some "" :: cs') m' = layerParamsExtract ns cs' m') := by
  refine ⟨layerParams_skip_all names cs m h, ?_⟩
  intro ns n cs' m'
  constructor <;> rfl

/-- C9 witness: an unmatched optional capture in a later entry leaves the
value established by an earlier entry unchanged. -/
theorem claim9_empty_capture_frame_witness :
    (∀ c ∈ [(none : Option String)], c = none ∨ c = some "") ∧
    layerParamsExtract ["id"] [none] [("id", "5")] = [("id", "5")] :=
  ⟨by decide,
    (claim9_empty_capture_frame ["id"] [none] [("id", "5")] (by decide)).1⟩

theorem matchFold_spec (p m : String) (layers : List MLayer) :
    ∀ acc : MatchResult,
      layers.foldl (matchStep p m) acc =
        ⟨acc.path ++ layers.filter (fun l => l.matchesFn p),
         acc.pathAndMethod ++ layers.filter
           (fun l => l.matchesFn p && (l.methods.isEmpty || l.methods.contains m)),
         acc.route || layers.any
           (fun l => l.matchesFn p && (l.methods.isEmpty || l.methods.contains m)
              && !l.methods.isEmpty)⟩ := by
  induction layers with
  | nil => intro acc; simp
  | cons l ls ih =>
    intro acc
    simp only [List.foldl_cons]
    rw [ih]
    by_cases hm : l.matchesFn p = true
    · by_cases hc : (l.methods.isEmpty || l.methods.contains m) = true
      · have hcp : l.methods = [] ∨ m ∈ l.methods := by simpa using hc
        have hcd : (l.methods.isEmpty || decide (m ∈ l.methods)) = true := by
          simpa using hc
        simp only [matchStep, hm, hc, if_true]
        simp [List.filter_cons, List.any_cons, hm, hc, hcp, hcd, Bool.or_assoc]
      · have hc' : (l.methods.isEmpty || l.methods.contains m) = false := by
          simpa using hc
        have hcp : ¬(l.methods = [] ∨ m ∈ l.methods) := by simpa using hc
        have hcd : (l.methods.isEmpty || decide (m ∈ l.methods)) = false := by
          simpa using hc'
        simp only [matchStep, hm, hc', if_true, Bool.false_eq_true, if_false]
        simp [List.filter_cons, List.any_cons, hm, hc', hcp, hcd]
    · have hm' : l.matchesFn p = false := by simpa using hm
      simp only [matchStep, hm', Bool.false_eq_true, if_false]
      simp [List.filter_cons, List.any_cons, hm']

theorem routerMatch_path_eq (layers : List MLayer) (p m : String) :
    (routerMatch layers p m).path = layers.filter (fun l => l.matchesFn p) := by
  rw [routerMatch, matchFold_spec]
  simp

theorem routerMatch_pam_eq (layers : List MLayer) (p m : String) :
    (routerMatch layers p m).pathAndMethod
      = layers.filter (fun l => l.matchesFn p && (l.methods.isEmpty || l.methods.contains m)) := by
  rw [routerMatch, matchFold_spec]
  simp

theorem routerMatch_route_eq (layers : List MLayer) (p m : String) :
    (routerMatch layers p m).route
      = layers.any (fun l => l.matchesFn p && (l.methods.isEmpty || l.methods.contains m)
          && !l.methods.isEmpty) := by
  rw [routerMatch, matchFold_spec]
  simp

theorem route_pam_ne (layers : List MLayer) (p m : String)
    (h : (routerMatch layers p m).route = true) :
    (routerMatch layers p m).pathAndMethod ≠ [] := by
  rw [routerMatch_route_eq] at h
  rw [routerMatch_pam_eq]
  rcases List.any_eq_true.mp h with ⟨l, hl, hf⟩
  simp only [Bool.and_eq_true] at hf
  intro hempty
  have hmem : l ∈ layers.filter
      (fun l => l.matchesFn p && (l.methods.isEmpty || l.methods.contains m)) :=
    List.mem_filter.mpr ⟨hl, (Bool.and_eq_true _ _).mpr ⟨hf.1.1, hf.1.2⟩⟩
  rw [hempty] at hmem
  simp at hmem

/-- C6: the route flag of match is true exactly when some entry collected
into the path-and-method matches has a non-empty method set (a matching
method-agnostic middleware entry alone never raises it), and when the flag
is false the dispatcher falls through to the next handler outside the
dispatcher — the model's fallthrough outcome, which carries no error and
leaves everything but the path-match accumulator untouched. -/
theorem claim6_route_flag (layers : List MLayer) (p m : String) :
    ((routerMatch layers p m).route = true ↔
      ∃ l ∈ (routerMatch layers p m).pathAndMethod, l.methods ≠ []) ∧
    (∀ ctx : Ctx, ctx.routerPath = none →
      (routerMatch layers ctx.path ctx.method).route = false →
      dispatch layers none ctx = .fallthrough
        { ctx with matchedAcc := ctx.matchedAcc ++ (routerMatch layers ctx.path ctx.method).path }) := by
  constructor
  · rw [routerMatch_route_eq, routerMatch_pam_eq]
    rw [List.any_eq_true]
    constructor
    · rintro ⟨l, hl, hf⟩
      simp only [Bool.and_eq_true] at hf
      refine ⟨l, List.mem_filter.mpr ⟨hl, (Bool.and_eq_true _ _).mpr ⟨hf.1.1, hf.1.2⟩⟩, ?_⟩
      have := hf.2
      simpa using this
    · rintro ⟨l, hl, hne⟩
      rcases List.mem_filter.mp hl with ⟨hmem, hcond⟩
      refine ⟨l, hmem, ?_⟩
      simp only [Bool.and_eq_true] at hcond ⊢
      exact ⟨hcond, by simpa using hne⟩
  · intro ctx hrp hroute
    simp [dispatch, hrp, hroute]

/-- C6 witness: a single method-agnostic middleware entry matches the
request path, the route flag stays false, and the dispatcher falls through
with only the accumulator extended. -/
theorem claim6_route_flag_witness :
    (((routerMatch [wMwLayer] "/x" "GET").route = true ↔
      ∃ l ∈ (routerMatch [wMwLayer] "/x" "GET").pathAndMethod, l.methods ≠ []) ∧
      (∀ ctx : Ctx, ctx.routerPath = none →
        (routerMatch [wMwLayer] ctx.path ctx.method).route = false →
        dispatch [wMwLayer] none ctx = .fallthrough
          { ctx with matchedAcc := ctx.matchedAcc ++ (routerMatch [wMwLayer] ctx.path ctx.method).path })) ∧
    (routerMatch [wMwLayer] "/x" "GET").route = false :=
  ⟨claim6_route_flag [wMwLayer] "/x" "GET", rfl⟩

theorem runChain_trace (p : String) :
    ∀ (L : List MLayer) (c : Ctx),
      (runChain p L c).1 = (L.map MLayer.stack).flatten
  | [], _ => rfl
  | l :: ls, c => by
    simp only [runChain, List.map_cons, List.flatten_cons]
    rw [runChain_trace p ls (bindStep p l c)]

theorem runChain_matchedRoute (p : String) :
    ∀ (L : List MLayer) (c : Ctx), L ≠ [] →
      (runChain p L c).2.matchedRoute = L.getLast?.map MLayer.path
  | [], _, h => absurd rfl h
  | [l], c, _ => by simp [runChain, bindStep]
  | l :: l' :: ls, c, _ => by
    rw [List.getLast?_cons_cons]
    exact runChain_matchedRoute p (l' :: ls) (bindStep p l c) (by simp)

theorem runChain_matchedRouteName (p : String) :
    ∀ (L : List MLayer) (c : Ctx) (l : MLayer) (n : String),
      L.getLast? = some l → l.name = some n →
      (runChain p L c).2.matchedRouteName = some n
  | [], _, _, _, hL, _ => by simp at hL
  | [l0], c, l, n, hL, hn => by
    simp only [List.getLast?_singleton, Option.some.injEq] at hL
    subst hL
    simp [runChain, bindStep, hn]
  | l0 :: l1 :: ls, c, l, n, hL, hn => by
    rw [List.getLast?_cons_cons] at hL
    exact runChain_matchedRouteName p (l1 :: ls) (bindStep p l0 c) l n hL hn

theorem runChain_params (p : String) :
    ∀ (L : List MLayer) (c : Ctx),
      (runChain p L c).2.params
        = L.foldl (fun mp l => layerParamsExtract l.paramNames (l.capturesFn p) mp) c.params
  | [], _ => rfl
  | l :: ls, c => by
    simp only [runChain, List.foldl_cons]
    rw [runChain_params p ls (bindStep p l c)]
    rfl

theorem preChainCtx_params (L : List MLayer) (c : Ctx) :
    (preChainCtx L c).params = c.params := by
  cases h : L.getLast? <;> simp [preChainCtx, h]

/-- C3: whenever the match for a request finds an exact route, the
dispatcher executes one linear chain over the path-and-method matches in
registration order: the trace is the concatenation of every matched entry's
middleware stack in order, the exposed matched pattern after execution is
the path of the last (most specific) entry and, when that entry is named,
the exposed matched name is its name, and the final parameter map is the
left fold that recomputes each entry's captures against the real path and
merges them into the cumulative map — where merging a binding always
overwrites an earlier value for the same name (last conjunct). -/
theorem claim3_chain (layers : List MLayer) (ctx : Ctx)
    (hrp : ctx.routerPath = none)
    (h : (routerMatch layers ctx.path ctx.method).route = true) :
    let L := (routerMatch layers ctx.path ctx.method).pathAndMethod
    let c0 := preChainCtx L
      { ctx with matchedAcc := ctx.matchedAcc ++ (routerMatch layers ctx.path ctx.method).path }
    let r := runChain ctx.path L c0
    dispatch layers none ctx = .executed r.1 r.2 ∧
    r.1 = (L.map MLayer.stack).flatten ∧
    r.2.matchedRoute = L.getLast?.map MLayer.path ∧
    (∀ l n, L.getLast? = some l → l.name = some n → r.2.matchedRouteName = some n) ∧
    r.2.params = L.foldl
      (fun mp l => layerParamsExtract l.paramNames (l.capturesFn ctx.path) mp) ctx.params ∧
    (∀ (mp : PMap) (k v : String), lookupParam (insertParam mp k v) k = some v) := by
  intro L c0 r
  have hne : L ≠ [] := route_pam_ne layers ctx.path ctx.method h
  refine ⟨?_, runChain_trace ctx.path L c0, runChain_matchedRoute ctx.path L c0 hne,
    fun l n hL hn => runChain_matchedRouteName ctx.path L c0 l n hL hn, ?_,
    fun mp k v => lookupParam_insertParam mp k v⟩
  · have hpath : (Option.orElse (none : Option String) (fun _ => ctx.routerPath)).getD ctx.path
        = ctx.path := by simp [hrp]
    simp only [dispatch]
    rw [hpath, if_pos h]
  · rw [runChain_params ctx.path L c0, preChainCtx_params]

/-- C3 witness: two entries match GET /foo/3 — the parameter entry /foo/:id
registered first and the literal named entry /foo/3 registered second; the
dispatcher executes middleware 1 then middleware 2, exposes the literal
entry's pattern and name, and the parameter map ends with id bound by the
earlier entry and untouched by the later entry's empty capture list. -/
theorem claim3_chain_witness :
    wCtx3.routerPath = none ∧
    (routerMatch [wFooParam, wFooLit] wCtx3.path wCtx3.method).route = true ∧
    (let L := (routerMatch [wFooParam, wFooLit] wCtx3.path wCtx3.method).pathAndMethod
     let c0 := preChainCtx L
       { wCtx3 with matchedAcc := wCtx3.matchedAcc
           ++ (routerMatch [wFooParam, wFooLit] wCtx3.path wCtx3.method).path }
     let r := runChain wCtx3.path L c0
     dispatch [wFooParam, wFooLit] none wCtx3 = .executed r.1 r.2 ∧
     r.1 = (L.map MLayer.stack).flatten ∧
     r.2.matchedRoute = L.getLast?.map MLayer.path ∧
     (∀ l n, L.getLast? = some l → l.name = some n → r.2.matchedRouteName = some n) ∧
     r.2.params = L.foldl
       (fun mp l => layerParamsExtract l.paramNames (l.capturesFn wCtx3.path) mp) wCtx3.params ∧
     (∀ (mp : PMap) (k v : String), lookupParam (insertParam mp k v) k = some v)) ∧
    (runChain wCtx3.path (routerMatch [wFooParam, wFooLit] wCtx3.path wCtx3.method).pathAndMethod
        (preChainCtx (routerMatch [wFooParam, wFooLit] wCtx3.path wCtx3.method).pathAndMethod
          { wCtx3 with matchedAcc := wCtx3.matchedAcc
              ++ (routerMatch [wFooParam, wFooLit] wCtx3.path wCtx3.method).path })).1 = [1, 2] ∧
    (runChain wCtx3.path (routerMatch [wFooParam, wFooLit] wCtx3.path wCtx3.method).pathAndMethod
        (preChainCtx (routerMatch [wFooParam, wFooLit] wCtx3.path wCtx3.method).pathAndMethod
          { wCtx3 with matchedAcc := wCtx3.matchedAcc
              ++ (routerMatch [wFooParam, wFooLit] wCtx3.path wCtx3.method).path })).2.matchedRoute
      = some "/foo/3" ∧
    (runChain wCtx3.path (routerMatch [wFooParam, wFooLit] wCtx3.path wCtx3.method).pathAndMethod
        (preChainCtx (routerMatch [wFooParam, wFooLit] wCtx3.path wCtx3.method).pathAndMethod
          { wCtx3 with matchedAcc := wCtx3.matchedAcc
              ++ (routerMatch [wFooParam, wFooLit] wCtx3.path wCtx3.method).path })).2.matchedRouteName
      = some "foo3" ∧
    lookupParam
      (runChain wCtx3.path (routerMatch [wFooParam, wFooLit] wCtx3.path wCtx3.method).pathAndMethod
        (preChainCtx (routerMatch [wFooParam, wFooLit] wCtx3.path wCtx3.method).pathAndMethod
          { wCtx3 with matchedAcc := wCtx3.matchedAcc
              ++ (routerMatch [wFooParam, wFooLit] wCtx3.path wCtx3.method).path })).2.params "id"
      = some "3" :=
  ⟨rfl, rfl, claim3_chain [wFooParam, wFooLit] wCtx3 rfl rfl, rfl, rfl, rfl, rfl⟩

/-- C10 witness: a validator for a parameter absent from the pattern leaves a
concrete entry untouched, at the layer level and through the registry-level
update. -/
theorem claim10_param_frame_witness :
    ("other" ∉ ["id"]) ∧
    layerParamInsert ["id"] "other" [Item.plain 0] = [Item.plain 0] ∧
    (routerParamUpd "other" [(["id"], [Item.plain 0])])[0]? = some (["id"], [Item.plain 0]) :=
  ⟨by decide,
    claim10_param_frame.1 ["id"] "other" [Item.plain 0] (by decide),
    claim10_param_frame.2 "other" [(["id"], [Item.plain 0])] 0 (["id"], [Item.plain 0])
      rfl (by decide)⟩

theorem foldl_pushUnique (l : List String) :
    ∀ acc : List String,
      l.foldl pushUnique acc = acc ++ keepFirst (l.filter (fun b => b ∉ acc)) := by
  induction l with
  | nil => intro acc; simp [keepFirst]
  | cons a t ih =>
    intro acc
    by_cases ha : a ∈ acc
    · have hpu : pushUnique acc a = acc := by simp [pushUnique, ha]
      rw [List.foldl_cons, hpu, ih]
      have hfc : (a :: t).filter (fun b => decide (b ∉ acc))
          = t.filter (fun b => decide (b ∉ acc)) := by
        simp [List.filter_cons, ha]
      rw [hfc]
    · have hpu : pushUnique acc a = acc ++ [a] := by simp [pushUnique, ha]
      rw [List.foldl_cons, hpu, ih]
      have hfc : (a :: t).filter (fun b => decide (b ∉ acc))
          = a :: t.filter (fun b => decide (b ∉ acc)) := by
        simp [List.filter_cons, ha]
      rw [hfc, keepFirst]
      have hfil : t.filter (fun b => decide (b ∉ acc ++ [a]))
          = (t.filter (fun b => decide (b ∉ acc))).filter (fun b => b ≠ a) := by
        rw [List.filter_filter]
        refine List.filter_congr ?_
        intro b _
        simp [List.mem_append, not_or, Bool.and_comm]
      rw [hfil, List.append_assoc]
      rfl

theorem guardUnion_flatten (matched : List MLayer) :
    ∀ acc : List String,
      matched.foldl (fun ks l => l.methods.foldl pushUnique ks) acc
        = ((matched.map MLayer.methods).flatten).foldl pushUnique acc := by
  induction matched with
  | nil => intro acc; rfl
  | cons l ls ih =>
    intro acc
    simp only [List.map_cons, List.flatten_cons, List.foldl_append, List.foldl_cons]
    exact ih _

theorem guardUnion_eq_keepFirst (matched : List MLayer) :
    guardUnion matched = keepFirst ((matched.map MLayer.methods).flatten) := by
  rw [guardUnion, guardUnion_flatten, foldl_pushUnique]
  have hfil : ((matched.map MLayer.methods).flatten).filter
      (fun b => decide (b ∉ ([] : List String)))
      = (matched.map MLayer.methods).flatten :=
    List.filter_eq_self.mpr (fun a _ => by simp)
  rw [hfil, List.nil_append]

/-- C1: the Methods Guard in non-throw mode, applied to the context after
downstream completes: it acts only when the response status is unset or 404;
the Allow union is the union of the method sets of every entry in the
path-match accumulator with duplicates removed in first-discovery order
(last conjunct); a request method outside the implemented-method list gets
status 501 with the Allow header; otherwise with a non-empty union an
OPTIONS request gets status 200, empty body and the Allow header, a method
outside the union gets status 405 with the Allow header, and in the
remaining cases (empty union, or the method already in the union and not
OPTIONS) the context is unchanged. -/
theorem claim1_allowed_methods (implemented : List String) (ctx : Ctx) :
    (¬(ctx.status = none ∨ ctx.status = some 404) →
      allowedMethodsGuard implemented false ctx = .ok ctx) ∧
    ((ctx.status = none ∨ ctx.status = some 404) → ctx.method ∉ implemented →
      allowedMethodsGuard implemented false ctx = .ok { ctx with
        status := some 501
        headers := insertParam ctx.headers "Allow"
          (String.intercalate ", " (guardUnion ctx.matchedAcc)) }) ∧
    ((ctx.status = none ∨ ctx.status = some 404) → ctx.method ∈ implemented →
      guardUnion ctx.matchedAcc ≠ [] → ctx.method = "OPTIONS" →
      allowedMethodsGuard implemented false ctx = .ok { ctx with
        status := some 200
        body := some ""
        headers := insertParam ctx.headers "Allow"
          (String.intercalate ", " (guardUnion ctx.matchedAcc)) }) ∧
    ((ctx.status = none ∨ ctx.status = some 404) → ctx.method ∈ implemented →
      guardUnion ctx.matchedAcc ≠ [] → ctx.method ∉ guardUnion ctx.matchedAcc →
      ctx.method ≠ "OPTIONS" →
      allowedMethodsGuard implemented false ctx = .ok { ctx with
        status := some 405
        headers := insertParam ctx.headers "Allow"
          (String.intercalate ", " (guardUnion ctx.matchedAcc)) }) ∧
    ((ctx.status = none ∨ ctx.status = some 404) → ctx.method ∈ implemented →
      (guardUnion ctx.matchedAcc = [] ∨
        (ctx.method ∈ guardUnion ctx.matchedAcc ∧ ctx.method ≠ "OPTIONS")) →
      allowedMethodsGuard implemented false ctx = .ok ctx) ∧
    guardUnion ctx.matchedAcc = keepFirst ((ctx.matchedAcc.map MLayer.methods).flatten) := by
  refine ⟨?_, ?_, ?_, ?_, ?_, guardUnion_eq_keepFirst ctx.matchedAcc⟩
  · intro hgate
    simp only [allowedMethodsGuard]
    rw [if_neg hgate]
  · intro hgate hni
    simp only [allowedMethodsGuard]
    rw [if_pos hgate, if_pos hni]
    rfl
  · intro hgate hyes hune hopt
    simp only [allowedMethodsGuard]
    rw [if_pos hgate, if_neg (not_not_intro hyes), if_pos hune, if_pos hopt]
  · intro hgate hyes hune hnin hnopt
    simp only [allowedMethodsGuard]
    rw [if_pos hgate, if_neg (not_not_intro hyes), if_pos hune, if_neg hnopt, if_pos hnin]
    rfl
  · intro hgate hyes hrest
    simp only [allowedMethodsGuard]
    rw [if_pos hgate, if_neg (not_not_intro hyes)]
    rcases hrest with hu | ⟨hin, hnopt⟩
    · rw [if_neg (by simpa using hu)]
    · rw [if_pos (List.ne_nil_of_mem hin), if_neg hnopt, if_neg (not_not_intro hin)]

/-- C1 witness: entries for path /x registered for GET (hence HEAD, GET) and
for POST, a PUT request, status unset: the guard answers 405 with the Allow
header listing HEAD, GET, POST in first-discovery order. -/
theorem claim1_allowed_methods_witness :
    (wCtx1.status = none ∨ wCtx1.status = some 404) ∧
    wCtx1.method ∈ wImplemented ∧
    guardUnion wCtx1.matchedAcc ≠ [] ∧
    wCtx1.method ∉ guardUnion wCtx1.matchedAcc ∧
    wCtx1.method ≠ "OPTIONS" ∧
    allowedMethodsGuard wImplemented false wCtx1 = .ok { wCtx1 with
      status := some 405
      headers := insertParam wCtx1.headers "Allow"
        (String.intercalate ", " (guardUnion wCtx1.matchedAcc)) } ∧
    guardUnion wCtx1.matchedAcc = ["HEAD", "GET", "POST"] ∧
    String.intercalate ", " (guardUnion wCtx1.matchedAcc) = "HEAD, GET, POST" :=
  ⟨Or.inl rfl, by decide, by decide, by decide, by decide,
    (claim1_allowed_methods wImplemented wCtx1).2.2.2.1 (Or.inl rfl) (by decide)
      (by decide) (by decide) (by decide),
    by decide, by decide⟩

/-- C8: URL generation by route name returns an error value — never throws —
when the name matches no entry, leaving the registry exactly as it was, and
when the name is found the first entry in registration order with that name
is the one used (routerRoute is the first-match linear scan, List.find?). -/
theorem claim8_url_by_name (stack : List MLayer) (build : MLayer → String) (n : String) :
    routerRoute stack n = stack.find? (fun l => nameMatches l n) ∧
    (routerRoute stack n = none →
      routerUrl stack build n = (.error ("No route found for name: " ++ n), stack)) ∧
    (∀ l, routerRoute stack n = some l →
      routerUrl stack build n = (.ok (build l), stack)) := by
  refine ⟨?_, ?_, ?_⟩
  · induction stack with
    | nil => rfl
    | cons l ls ih =>
      by_cases hm : nameMatches l n = true
      · simp [routerRoute, List.find?_cons, hm]
      · have hm' : nameMatches l n = false := by simpa using hm
        simp [routerRoute, List.find?_cons, hm', ih]
  · intro h
    simp only [routerUrl, h]
  · intro l h
    simp only [routerUrl, h]

/-- C8 witness: with two entries both named user, lookup uses the first in
registration order; an unknown name yields the error value and the
unchanged registry. -/
theorem claim8_url_by_name_witness :
    routerRoute [wU1, wU2] "user" = some wU1 ∧
    routerUrl [wU1, wU2] MLayer.path "user" = (.ok "/users/:id", [wU1, wU2]) ∧
    routerRoute [wU1, wU2] "ghost" = none ∧
    routerUrl [wU1, wU2] MLayer.path "ghost"
      = (.error "No route found for name: ghost", [wU1, wU2]) :=
  ⟨rfl,
    (claim8_url_by_name [wU1, wU2] MLayer.path "user").2.2 wU1 rfl,
    rfl,
    (claim8_url_by_name [wU1, wU2] MLayer.path "ghost").2.1 rfl⟩

theorem hApplyPfx_stackRef (pre : Pattern) (l : HLayer) :
    (hApplyPfx pre l).stackRef = l.stackRef := by
  unfold hApplyPfx
  split_ifs <;> rfl

theorem cloneEntry_stackRef (mountPath pfx : Option Pattern) (l : HLayer) :
    (cloneEntry mountPath pfx l).stackRef = l.stackRef := by
  unfold cloneEntry
  cases mountPath <;> cases pfx <;> simp [hApplyPfx_stackRef]

/-- C2 counterexample: a child registry with one entry for /users/:id and a
single plain middleware is mounted under /mnt into an empty parent; adding a
parameter validator for id on the parent afterwards changes the stack array
that the child registry's own entry still references — the entry's
middleware stack does not remain unchanged, refuting the claimed deep-copy
independence. -/
theorem claim2_deep_copy_counterexample :
    (storeGet (hregister ⟨[], [], none⟩ ⟨[]⟩ [Seg.lit "/users/", Seg.param "id"] ["GET"]
        [Item.plain 0] none).2
      (((hregister ⟨[], [], none⟩ ⟨[]⟩ [Seg.lit "/users/", Seg.param "id"] ["GET"]
        [Item.plain 0] none).1.stack.getD 0 default).stackRef) = [Item.plain 0]) ∧
    (let reg := hregister ⟨[], [], none⟩ ⟨[]⟩ [Seg.lit "/users/", Seg.param "id"] ["GET"]
        [Item.plain 0] none
     let merged := huse ⟨[], [], none⟩ reg.2 (some [Seg.lit "/mnt"]) reg.1
     let afterP := hrouterParam merged.1 merged.2 "id"
     storeGet afterP.2 ((reg.1.stack.getD 0 default).stackRef)
        = [Item.validator "id", Item.plain 0] ∧
     storeGet afterP.2 ((reg.1.stack.getD 0 default).stackRef) ≠ [Item.plain 0]) := by
  decide

/-- C2 (amended): mounting another registry's dispatcher clones each nested
entry shallowly: the clone appended at the corresponding position of the
mounting registry is exactly the source entry re-prefixed (mount path first,
then the mounting registry's configured prefix), and it keeps the source
entry's stack reference — the two registries share that middleware-stack
array, so a later validator insertion through either is visible to both. -/
theorem claim2_shallow_clone (rt child : HRouter) (st : Store) (mountPath : Option Pattern)
    (j : Nat) (h : j < child.stack.length) :
    (huse rt st mountPath child).1.stack.getD (rt.stack.length + j) default
      = cloneEntry mountPath rt.prefixPat (child.stack.getD j default) ∧
    (∀ l : HLayer, (cloneEntry mountPath rt.prefixPat l).stackRef = l.stackRef) ∧
    (huse rt st mountPath child).1.stack.length
      = rt.stack.length + child.stack.length := by
  refine ⟨?_, fun l => cloneEntry_stackRef mountPath rt.prefixPat l, ?_⟩
  · show (rt.stack ++ child.stack.map (cloneEntry mountPath rt.prefixPat)).getD
        (rt.stack.length + j) default = _
    rw [List.getD_eq_getElem?_getD, List.getElem?_append_right (by omega),
      Nat.add_sub_cancel_left, List.getElem?_map, List.getElem?_eq_getElem h]
    rw [List.getD_eq_getElem?_getD, List.getElem?_eq_getElem h]
    rfl
  · show (rt.stack ++ child.stack.map (cloneEntry mountPath rt.prefixPat)).length = _
    simp

/-- C2 witness for the amended statement: the single entry of a concrete
child registry mounted under /mnt appears as the re-prefixed clone sharing
stack reference 0 with the source entry. -/
theorem claim2_shallow_clone_witness :
    (0 < ([(⟨[Seg.param "id"], false, 0, none, ["HEAD", "GET"]⟩ : HLayer)].length)) ∧
    ((huse ⟨[], [], none⟩ ⟨[[Item.plain 0]]⟩ (some [Seg.lit "/mnt"])
        ⟨[⟨[Seg.param "id"], false, 0, none, ["HEAD", "GET"]⟩], [], none⟩).1.stack.getD
        (([] : List HLayer).length + 0) default
      = cloneEntry (some [Seg.lit "/mnt"]) none
          ((([⟨[Seg.param "id"], false, 0, none, ["HEAD", "GET"]⟩] : List HLayer)).getD 0 default) ∧
    (∀ l : HLayer, (cloneEntry (some [Seg.lit "/mnt"]) none l).stackRef = l.stackRef) ∧
    (huse ⟨[], [], none⟩ ⟨[[Item.plain 0]]⟩ (some [Seg.lit "/mnt"])
        ⟨[⟨[Seg.param "id"], false, 0, none, ["HEAD", "GET"]⟩], [], none⟩).1.stack.length
      = ([] : List HLayer).length
        + ([⟨[Seg.param "id"], false, 0, none, ["HEAD", "GET"]⟩] : List HLayer).length) :=
  ⟨by decide,
    claim2_shallow_clone ⟨[], [], none⟩
      ⟨[⟨[Seg.param "id"], false, 0, none, ["HEAD", "GET"]⟩], [], none⟩
      ⟨[[Item.plain 0]]⟩ (some [Seg.lit "/mnt"]) 0 (by decide)⟩

end RouterSpec
